import Mathlib

/-!
Shallow embedding of the NVVM codegen linking stage
(crates/rustc_codegen_nvvm/src/nvvm.rs) and proofs about it.

The embedding models:
* the internalization pass (`internalize_pass`) over a module of functions,
  globals and named-metadata nodes;
* the global dead-code elimination step (`dce_pass`), whose reachability
  semantics live in LLVM's GlobalDCE pass and are modelled from the spec;
* the module merge step (`merge_llvm_modules`), whose duplicate-symbol
  behaviour lives in LLVM's linker and is modelled from the spec;
* the driver (`codegen_bitcode_modules`) as a function of an environment
  recording the outcome of each external libnvvm / filesystem call;
* the libdevice lookup (`find_libdevice`).

Rust panics and Rust index-out-of-bounds aborts are modelled as `none` /
distinguished `Outcome` constructors; machine pointers that identify LLVM
values are modelled as natural-number identities.
-/

namespace Nvvm

/-- LLVM linkage kinds relevant to this stage (the source only ever writes
`InternalLinkage` and `ExternalLinkage`; `weak` stands for any other
pre-existing linkage a symbol may carry when the pass starts). -/
inductive Linkage
  | external
  | internal
  | weak
deriving DecidableEq, Repr

/-- LLVM visibility kinds (the source only ever writes `Default`). -/
inductive Visibility
  | default
  | hidden
deriving DecidableEq, Repr

/-- An operand of an LLVM metadata node: either a reference to a module-level
value (function or global, identified by pointer identity, modelled as `Nat`)
or a uniqued metadata string. -/
inductive MDOperand
  | value (id : Nat)
  | mdstring (s : String)
deriving DecidableEq, Repr

/-- A function or global of the module: pointer identity, linkage, visibility
and the `LLVMIsDeclaration` flag (true when there is no body/initializer). -/
structure Symbol where
  id : Nat
  linkage : Linkage
  visibility : Visibility
  isDecl : Bool
deriving DecidableEq, Repr

/-- The merged LLVM module as seen by `internalize_pass`: its function chain,
its global chain, and the operand lists of the two named metadata nodes the
pass scans (`nvvm.annotations` and `cg_nvvm_used`). -/
structure Module where
  functions : List Symbol
  globals : List Symbol
  annotations : List (List MDOperand)
  usedMd : List (List MDOperand)
deriving DecidableEq, Repr

/-- One step of the `nvvm.annotations` scan in `internalize_pass`: if the
node's operand 1 is the uniqued `"kernel"` metadata string, push operand 0.
The Rust indexing `operands[0]` is modelled by `none` on out-of-bounds
(it cannot actually fire here: `operands.get(1)` being `Some` forces at
least two operands). -/
def kernelStep (acc : List MDOperand) (ops : List MDOperand) : Option (List MDOperand) :=
  if ops[1]? = some (MDOperand.mdstring "kernel") then
    match ops[0]? with
    | some v => some (acc ++ [v])
    | none => none
  else some acc

/-- The kernel-collection loop of `internalize_pass` over the
`nvvm.annotations` metadata node. -/
def kernelsOf (annotations : List (List MDOperand)) : Option (List MDOperand) :=
  annotations.foldlM kernelStep []

/-- One step of the `cg_nvvm_used` scan in `internalize_pass`: unconditionally
read operand 0 of the node (`used_funcs.push(operands[0])`); the Rust index
panic on an empty operand list is modelled by `none`. -/
def usedStep (acc : List MDOperand) (ops : List MDOperand) : Option (List MDOperand) :=
  match ops[0]? with
  | some v => some (acc ++ [v])
  | none => none

/-- The retained-set collection loop of `internalize_pass` over the
`cg_nvvm_used` metadata node. -/
def usedFuncsOf (usedMd : List (List MDOperand)) : Option (List MDOperand) :=
  usedMd.foldlM usedStep []

/-- The per-function body of the function loop of `internalize_pass`:
demote to internal/default unless a declaration or a kernel, then force
external/default when the function is in the retained (`cg_nvvm_used`) set. -/
def internalizeFunc (kernels used : List MDOperand) (f : Symbol) : Symbol :=
  let f1 :=
    if f.isDecl = false ∧ MDOperand.value f.id ∉ kernels then
      { f with linkage := Linkage.internal, visibility := Visibility.default }
    else f
  if MDOperand.value f.id ∈ used then
    { f1 with linkage := Linkage.external, visibility := Visibility.default }
  else f1

/-- The per-global body of the global loop of `internalize_pass`: demote to
internal/default unless a declaration. -/
def internalizeGlobal (g : Symbol) : Symbol :=
  if g.isDecl = false then
    { g with linkage := Linkage.internal, visibility := Visibility.default }
  else g

/-- The whole `internalize_pass`: collect kernels and retained symbols from
metadata, then rewrite every function and every global. `none` models a
Rust panic during the metadata scans. -/
def internalize_pass (m : Module) : Option Module := do
  let kernels ← kernelsOf m.annotations
  let used ← usedFuncsOf m.usedMd
  some { m with
    functions := m.functions.map (internalizeFunc kernels used),
    globals := m.globals.map internalizeGlobal }

theorem kernelStep_short (acc ops : List MDOperand) (h : ops.length < 2) :
    kernelStep acc ops = some acc := by
  unfold kernelStep
  rw [if_neg]
  intro hcontra
  have h1 : 1 < ops.length := by
    rcases List.getElem?_eq_some.mp hcontra with ⟨hlt, _⟩
    exact hlt
  omega

theorem kernelStep_isSome (acc ops : List MDOperand) :
    ∃ acc2, kernelStep acc ops = some acc2 := by
  unfold kernelStep
  split
  · rename_i h
    match ops, h with
    | a :: b :: t, _ => exact ⟨acc ++ [a], rfl⟩
  · exact ⟨acc, rfl⟩

theorem kernelsOf_aux (annotations : List (List MDOperand)) :
    ∀ acc : List MDOperand, ∃ k, annotations.foldlM kernelStep acc = some k := by
  induction annotations with
  | nil => intro acc; exact ⟨acc, rfl⟩
  | cons ops t ih =>
    intro acc
    rcases kernelStep_isSome acc ops with ⟨acc2, h2⟩
    rcases ih acc2 with ⟨k, hk⟩
    exact ⟨k, by simp [List.foldlM_cons, h2, hk]⟩

theorem kernelsOf_isSome (annotations : List (List MDOperand)) :
    ∃ k, kernelsOf annotations = some k :=
  kernelsOf_aux annotations []

theorem usedFuncsOf_aux (usedMd : List (List MDOperand))
    (hne : ∀ node ∈ usedMd, node ≠ []) :
    ∀ acc : List MDOperand, ∃ u, usedMd.foldlM usedStep acc = some u := by
  induction usedMd with
  | nil => intro acc; exact ⟨acc, rfl⟩
  | cons ops t ih =>
    intro acc
    have hops : ops ≠ [] := hne ops (List.mem_cons_self _ _)
    match ops, hops with
    | v :: rest, _ =>
      have hstep : usedStep acc (v :: rest) = some (acc ++ [v]) := by simp [usedStep]
      rcases ih (fun node hn => hne node (List.mem_cons_of_mem _ hn)) (acc ++ [v]) with ⟨u, hu⟩
      exact ⟨u, by simp [List.foldlM_cons, hstep, hu]⟩

theorem internalizeFunc_decl_unretained (k u : List MDOperand) (f : Symbol)
    (hd : f.isDecl = true) (hu : MDOperand.value f.id ∉ u) :
    internalizeFunc k u f = f := by
  unfold internalizeFunc
  rw [if_neg hu, if_neg]
  simp [hd]

theorem internalizeFunc_retained (k u : List MDOperand) (f : Symbol)
    (hu : MDOperand.value f.id ∈ u) :
    internalizeFunc k u f =
      { f with linkage := Linkage.external, visibility := Visibility.default } := by
  rcases f with ⟨fid, fl, fv, fd⟩
  unfold internalizeFunc
  rw [if_pos hu]
  split <;> rfl

theorem internalizeFunc_plain (k u : List MDOperand) (f : Symbol)
    (hd : f.isDecl = false) (hk : MDOperand.value f.id ∉ k)
    (hu : MDOperand.value f.id ∉ u) :
    internalizeFunc k u f =
      { f with linkage := Linkage.internal, visibility := Visibility.default } := by
  unfold internalizeFunc
  rw [if_neg hu, if_pos ⟨hd, hk⟩]

theorem internalizeFunc_kernel_unretained (k u : List MDOperand) (f : Symbol)
    (hk : MDOperand.value f.id ∈ k) (hu : MDOperand.value f.id ∉ u) :
    internalizeFunc k u f = f := by
  unfold internalizeFunc
  rw [if_neg hu, if_neg]
  simp [hk]

theorem internalizeFunc_idem (k u : List MDOperand) (f : Symbol) :
    internalizeFunc k u (internalizeFunc k u f) = internalizeFunc k u f := by
  by_cases hu : MDOperand.value f.id ∈ u
  · rw [internalizeFunc_retained k u f hu]
    exact internalizeFunc_retained k u _ hu
  · by_cases hd : f.isDecl = true
    · rw [internalizeFunc_decl_unretained k u f hd hu]
      exact internalizeFunc_decl_unretained k u f hd hu
    · have hd' : f.isDecl = false := by
        cases hfd : f.isDecl
        · rfl
        · exact absurd hfd hd
      by_cases hk : MDOperand.value f.id ∈ k
      · rw [internalizeFunc_kernel_unretained k u f hk hu]
        exact internalizeFunc_kernel_unretained k u f hk hu
      · rw [internalizeFunc_plain k u f hd' hk hu]
        exact internalizeFunc_plain k u _ hd' hk hu

theorem internalizeGlobal_decl (g : Symbol) (hd : g.isDecl = true) :
    internalizeGlobal g = g := by
  unfold internalizeGlobal
  rw [if_neg (by simp [hd])]

theorem internalizeGlobal_def (g : Symbol) (hd : g.isDecl = false) :
    internalizeGlobal g =
      { g with linkage := Linkage.internal, visibility := Visibility.default } := by
  unfold internalizeGlobal
  rw [if_pos hd]

theorem internalizeGlobal_idem (g : Symbol) :
    internalizeGlobal (internalizeGlobal g) = internalizeGlobal g := by
  by_cases hd : g.isDecl = false
  · rw [internalizeGlobal_def g hd]
    exact internalizeGlobal_def _ hd
  · have hd' : g.isDecl = true := by
      cases h : g.isDecl
      · exact absurd h hd
      · rfl
    rw [internalizeGlobal_decl g hd']
    exact internalizeGlobal_decl g hd'

/-- Shape of a successful run of `internalize_pass`: the kernel scan and the
retained scan both succeeded and the function/global chains were rewritten
pointwise, with the metadata untouched. -/
theorem internalize_pass_eq (m m' : Module) (h : internalize_pass m = some m') :
    ∃ k u, kernelsOf m.annotations = some k ∧ usedFuncsOf m.usedMd = some u ∧
      m' = { m with
        functions := m.functions.map (internalizeFunc k u),
        globals := m.globals.map internalizeGlobal } := by
  unfold internalize_pass at h
  cases hk : kernelsOf m.annotations with
  | none => rw [hk] at h; simp at h
  | some k =>
    cases hu : usedFuncsOf m.usedMd with
    | none => rw [hk, hu] at h; simp at h
    | some u =>
      rw [hk, hu] at h
      exact ⟨k, u, rfl, rfl, (Option.some.inj h).symm⟩

/-!
Dead-code elimination. `dce_pass` in the source only schedules LLVM's
GlobalDCE pass (`LLVMAddGlobalDCEPass` / `LLVMRunPassManager`); the pass body
itself is external to this repository, so its semantics are modelled from the
spec below.
-/

/-- Modelled from the spec: the module view seen by LLVM's GlobalDCE pass
(the body of the pass is not part of this repository). `symbols` are the
module's functions and globals; `refs` records that the symbol with the
first id contains a use (call or reference) of the symbol with the second id. -/
structure DceModule where
  symbols : List Symbol
  refs : List (Nat × Nat)
deriving DecidableEq, Repr

/-- The ids of the symbols present in a DCE module. -/
def idsOf (m : DceModule) : List Nat := m.symbols.map Symbol.id

/-- Well-formed DCE module: every recorded reference connects two symbols
that are present in the module. -/
def DceWF (m : DceModule) : Prop :=
  ∀ p ∈ m.refs, p.1 ∈ idsOf m ∧ p.2 ∈ idsOf m

instance (m : DceModule) : Decidable (DceWF m) := by
  unfold DceWF; infer_instance

/-- Modelled from the spec: the root set of the reachability sweep — every
symbol that is still externally visible after internalization. -/
def rootsList (m : DceModule) : List Nat :=
  (m.symbols.filter (fun s => decide (s.linkage ≠ Linkage.internal))).map Symbol.id

/-- One edge-propagation step of the worklist: add the target of a reference
whose source is already reached. -/
def addRef (acc : List Nat) (p : Nat × Nat) : List Nat :=
  if p.1 ∈ acc ∧ p.2 ∉ acc then acc ++ [p.2] else acc

/-- One full sweep over all references. -/
def reachStep (refs : List (Nat × Nat)) (r : List Nat) : List Nat :=
  refs.foldl addRef r

/-- Iterate the sweep a given number of times. -/
def iterStep (refs : List (Nat × Nat)) : Nat → List Nat → List Nat
  | 0, r => r
  | n + 1, r => iterStep refs n (reachStep refs r)

/-- The set of ids reachable from the externally-visible roots, computed by
saturating the sweep (`refs.length` rounds always suffice). -/
def reachableList (m : DceModule) : List Nat :=
  iterStep m.refs m.refs.length (rootsList m)

/-- Modelled from the spec: transitive reachability from an externally-visible
root along call/reference edges. -/
inductive ReachableP (m : DceModule) : Nat → Prop
  | root (s : Symbol) : s ∈ m.symbols → s.linkage ≠ Linkage.internal → ReachableP m s.id
  | step (a b : Nat) : ReachableP m a → (a, b) ∈ m.refs → ReachableP m b

/-- A symbol survives DCE when it is still externally visible or reachable. -/
def keepSym (m : DceModule) (s : Symbol) : Bool :=
  decide (s.linkage ≠ Linkage.internal) || decide (s.id ∈ reachableList m)

/-- The ids of the symbols surviving DCE. -/
def keptIds (m : DceModule) : List Nat :=
  (m.symbols.filter (keepSym m)).map Symbol.id

/-- Modelled from the spec: the global DCE pass scheduled by `dce_pass` —
delete every internal-linkage symbol not reachable from an externally-visible
root, together with the references contained in deleted bodies. -/
def dce_pass (m : DceModule) : DceModule :=
  { symbols := m.symbols.filter (keepSym m)
    refs := m.refs.filter (fun p => decide (p.1 ∈ keptIds m) && decide (p.2 ∈ keptIds m)) }

theorem foldl_addRef_append (l : List (Nat × Nat)) :
    ∀ acc : List Nat, ∃ extra, l.foldl addRef acc = acc ++ extra ∧
      ∀ x ∈ extra, x ∈ l.map Prod.snd ∧ x ∉ acc := by
  induction l with
  | nil => intro acc; exact ⟨[], by simp⟩
  | cons p t ih =>
    intro acc
    by_cases hc : p.1 ∈ acc ∧ p.2 ∉ acc
    · rcases ih (acc ++ [p.2]) with ⟨e2, he2, hprop⟩
      refine ⟨p.2 :: e2, ?_, ?_⟩
      · simp only [List.foldl_cons, addRef, if_pos hc] at *
        rw [he2, List.append_assoc]
        rfl
      · intro x hx
        rcases List.mem_cons.mp hx with hx | hx
        · subst hx
          exact ⟨by simp, hc.2⟩
        · rcases hprop x hx with ⟨h1, h2⟩
          refine ⟨?_, fun hmem => h2 (by simp [hmem])⟩
          rw [List.map_cons]
          exact List.mem_cons_of_mem _ h1
    · rcases ih acc with ⟨e2, he2, hprop⟩
      refine ⟨e2, ?_, ?_⟩
      · simp only [List.foldl_cons, addRef, if_neg hc]
        exact he2
      · intro x hx
        rcases hprop x hx with ⟨h1, h2⟩
        refine ⟨?_, h2⟩
        rw [List.map_cons]
        exact List.mem_cons_of_mem _ h1

theorem subset_reachStep (refs : List (Nat × Nat)) (r : List Nat) :
    ∀ x ∈ r, x ∈ reachStep refs r := by
  intro x hx
  rcases foldl_addRef_append refs r with ⟨e, he, _⟩
  unfold reachStep
  rw [he]
  exact List.mem_append_left _ hx

theorem subset_iterStep (refs : List (Nat × Nat)) (n : Nat) :
    ∀ r : List Nat, ∀ x ∈ r, x ∈ iterStep refs n r := by
  induction n with
  | zero => intro r x hx; exact hx
  | succ n ih =>
    intro r x hx
    exact ih (reachStep refs r) x (subset_reachStep refs r x hx)

theorem filter_length_mono {α : Type} (l : List α) (p q : α → Bool)
    (himp : ∀ x ∈ l, q x = true → p x = true) :
    (l.filter q).length ≤ (l.filter p).length := by
  induction l with
  | nil => simp
  | cons a t ih =>
    have ht := ih (fun x hx => himp x (List.mem_cons_of_mem _ hx))
    cases hq : q a
    · cases hp : p a
      · rw [List.filter_cons_of_neg (by simp [hq]), List.filter_cons_of_neg (by simp [hp])]
        exact ht
      · rw [List.filter_cons_of_neg (by simp [hq]), List.filter_cons_of_pos hp]
        simp only [List.length_cons]
        omega
    · have hp := himp a (List.mem_cons_self _ _) hq
      rw [List.filter_cons_of_pos hq, List.filter_cons_of_pos hp]
      simp only [List.length_cons]
      omega

theorem filter_length_strict {α : Type} (l : List α) (p q : α → Bool)
    (himp : ∀ x ∈ l, q x = true → p x = true)
    (x : α) (hx : x ∈ l) (hpx : p x = true) (hqx : q x = false) :
    (l.filter q).length < (l.filter p).length := by
  induction l with
  | nil => cases hx
  | cons a t ih =>
    have himpt : ∀ y ∈ t, q y = true → p y = true :=
      fun y hy => himp y (List.mem_cons_of_mem _ hy)
    rcases List.mem_cons.mp hx with rfl | hxt
    · have hmono := filter_length_mono t p q himpt
      rw [List.filter_cons_of_neg (by simp [hqx]), List.filter_cons_of_pos hpx]
      simp only [List.length_cons]
      omega
    · have hlt := ih himpt hxt
      cases hq : q a
      · cases hp : p a
        · rw [List.filter_cons_of_neg (by simp [hq]), List.filter_cons_of_neg (by simp [hp])]
          exact hlt
        · rw [List.filter_cons_of_neg (by simp [hq]), List.filter_cons_of_pos hp]
          simp only [List.length_cons]
          omega
      · have hp := himp a (List.mem_cons_self _ _) hq
        rw [List.filter_cons_of_pos hq, List.filter_cons_of_pos hp]
        simp only [List.length_cons]
        omega

/-- The measure of the saturation: how many potential reference targets are
not yet reached. -/
def newTargets (refs : List (Nat × Nat)) (r : List Nat) : Nat :=
  ((refs.map Prod.snd).dedup.filter (fun x => decide (x ∉ r))).length

theorem newTargets_le (refs : List (Nat × Nat)) (r : List Nat) :
    newTargets refs r ≤ refs.length := by
  unfold newTargets
  calc ((refs.map Prod.snd).dedup.filter _).length
      ≤ (refs.map Prod.snd).dedup.length := List.length_filter_le _ _
    _ ≤ (refs.map Prod.snd).length := (List.dedup_sublist _).length_le
    _ = refs.length := List.length_map _ _

theorem reachStep_measure (refs : List (Nat × Nat)) (r : List Nat)
    (hne : reachStep refs r ≠ r) :
    newTargets refs (reachStep refs r) < newTargets refs r := by
  rcases foldl_addRef_append refs r with ⟨extra, he, hprop⟩
  have hrs : reachStep refs r = r ++ extra := he
  have hextra : extra ≠ [] := by
    intro h0
    exact hne (by rw [hrs, h0, List.append_nil])
  rcases List.exists_mem_of_ne_nil extra hextra with ⟨x, hx⟩
  rcases hprop x hx with ⟨hxsnd, hxr⟩
  have hximem : x ∈ reachStep refs r := by
    rw [hrs]; exact List.mem_append_right _ hx
  exact filter_length_strict _ _ _
    (fun y _ hy =>
      decide_eq_true fun hmem =>
        of_decide_eq_true hy (subset_reachStep refs r y hmem))
    x (List.mem_dedup.mpr hxsnd) (decide_eq_true hxr)
    (decide_eq_false (not_not_intro hximem))

theorem newTargets_zero_fix (refs : List (Nat × Nat)) (r : List Nat)
    (h : newTargets refs r = 0) : reachStep refs r = r := by
  rcases foldl_addRef_append refs r with ⟨extra, he, hprop⟩
  have hempty : extra = [] := by
    by_contra hne
    rcases List.exists_mem_of_ne_nil extra hne with ⟨x, hx⟩
    rcases hprop x hx with ⟨hxsnd, hxr⟩
    have hxd : x ∈ (refs.map Prod.snd).dedup := List.mem_dedup.mpr hxsnd
    have hmem : x ∈ (refs.map Prod.snd).dedup.filter (fun y => decide (y ∉ r)) :=
      List.mem_filter.mpr ⟨hxd, decide_eq_true hxr⟩
    unfold newTargets at h
    rw [List.length_eq_zero] at h
    rw [h] at hmem
    cases hmem
  show refs.foldl addRef r = r
  rw [he, hempty, List.append_nil]

theorem iterStep_of_fix (refs : List (Nat × Nat)) (n : Nat) (r : List Nat)
    (h : reachStep refs r = r) : iterStep refs n r = r := by
  induction n with
  | zero => rfl
  | succ n ih => simp [iterStep, h, ih]

theorem iterStep_fix (refs : List (Nat × Nat)) :
    ∀ (fuel : Nat) (r : List Nat), newTargets refs r ≤ fuel →
      reachStep refs (iterStep refs fuel r) = iterStep refs fuel r := by
  intro fuel
  induction fuel with
  | zero =>
    intro r h
    have h0 : newTargets refs r = 0 := Nat.le_zero.mp h
    exact newTargets_zero_fix refs r h0
  | succ n ih =>
    intro r h
    by_cases hfix : reachStep refs r = r
    · show reachStep refs (iterStep refs n (reachStep refs r)) = iterStep refs n (reachStep refs r)
      rw [hfix, iterStep_of_fix refs n r hfix, hfix]
    · have hlt := reachStep_measure refs r hfix
      have hle : newTargets refs (reachStep refs r) ≤ n := by omega
      exact ih (reachStep refs r) hle

theorem foldl_addRef_fixed (l : List (Nat × Nat)) :
    ∀ acc : List Nat, List.foldl addRef acc l = acc →
      ∀ p ∈ l, p.1 ∈ acc → p.2 ∈ acc := by
  induction l with
  | nil => intro acc _ p hp; cases hp
  | cons q t ih =>
    intro acc hfold p hp hp1
    have hlen : ∀ (l2 : List (Nat × Nat)) (a : List Nat),
        a.length ≤ (List.foldl addRef a l2).length := by
      intro l2 a
      rcases foldl_addRef_append l2 a with ⟨e, he, _⟩
      rw [he]
      simp
    by_cases hc : q.1 ∈ acc ∧ q.2 ∉ acc
    · exfalso
      have heq : List.foldl addRef (acc ++ [q.2]) t = acc := by
        rw [List.foldl_cons] at hfold
        rw [show addRef acc q = acc ++ [q.2] from if_pos hc] at hfold
        exact hfold
      have hcontra := hlen t (acc ++ [q.2])
      rw [heq] at hcontra
      simp at hcontra
    · have hfold' : List.foldl addRef acc t = acc := by
        rw [List.foldl_cons, show addRef acc q = acc from if_neg hc] at hfold
        exact hfold
      rcases List.mem_cons.mp hp with rfl | hpt
      · by_contra h2
        exact hc ⟨hp1, h2⟩
      · exact ih acc hfold' p hpt hp1

theorem rootsList_subset_reachableList (m : DceModule) :
    ∀ x ∈ rootsList m, x ∈ reachableList m :=
  subset_iterStep m.refs m.refs.length (rootsList m)

theorem reachableList_closed (m : DceModule) :
    ∀ p ∈ m.refs, p.1 ∈ reachableList m → p.2 ∈ reachableList m := by
  have hfix : reachStep m.refs (reachableList m) = reachableList m :=
    iterStep_fix m.refs m.refs.length (rootsList m) (newTargets_le m.refs (rootsList m))
  exact foldl_addRef_fixed m.refs (reachableList m) hfix

theorem reachable_mem_reachableList (m : DceModule) (x : Nat)
    (h : ReachableP m x) : x ∈ reachableList m := by
  induction h with
  | root s hs hl =>
    apply rootsList_subset_reachableList
    exact List.mem_map.mpr ⟨s, List.mem_filter.mpr ⟨hs, decide_eq_true hl⟩, rfl⟩
  | step a b _ hab ih => exact reachableList_closed m (a, b) hab ih

theorem foldl_addRef_sound (P : Nat → Prop) (refs0 : List (Nat × Nat))
    (hstep : ∀ a b, P a → (a, b) ∈ refs0 → P b) (l : List (Nat × Nat)) :
    ∀ acc : List Nat, (∀ p ∈ l, p ∈ refs0) →
      (∀ x ∈ acc, P x) → ∀ x ∈ List.foldl addRef acc l, P x := by
  induction l with
  | nil => intro acc _ hacc x hx; exact hacc x hx
  | cons q t ih =>
    intro acc hsub hacc x hx
    rw [List.foldl_cons] at hx
    have hq : q ∈ refs0 := hsub q (List.mem_cons_self _ _)
    have hacc2 : ∀ y ∈ addRef acc q, P y := by
      intro y hy
      unfold addRef at hy
      split at hy
      · rename_i hcnd
        rcases List.mem_append.mp hy with hy | hy
        · exact hacc y hy
        · have hyq : y = q.2 := by simpa using hy
          subst hyq
          exact hstep q.1 q.2 (hacc q.1 hcnd.1) (by simpa using hq)
      · exact hacc y hy
    exact ih (addRef acc q) (fun p hp => hsub p (List.mem_cons_of_mem _ hp)) hacc2 x hx

theorem iterStep_sound (m : DceModule) (n : Nat) :
    ∀ r : List Nat, (∀ x ∈ r, ReachableP m x) →
      ∀ x ∈ iterStep m.refs n r, ReachableP m x := by
  induction n with
  | zero => intro r hr x hx; exact hr x hx
  | succ n ih =>
    intro r hr x hx
    exact ih (reachStep m.refs r)
      (foldl_addRef_sound (ReachableP m) m.refs
        (fun a b ha hab => ReachableP.step a b ha hab) m.refs r (fun _ hp => hp) hr) x hx

theorem reachableList_sound (m : DceModule) :
    ∀ x ∈ reachableList m, ReachableP m x := by
  apply iterStep_sound
  intro x hx
  rcases List.mem_map.mp hx with ⟨s, hsf, rfl⟩
  rcases List.mem_filter.mp hsf with ⟨hs, hdec⟩
  exact ReachableP.root s hs (of_decide_eq_true hdec)

theorem mem_keptIds_of_reachable (m : DceModule) (x : Nat)
    (hx : x ∈ idsOf m) (hr : ReachableP m x) : x ∈ keptIds m := by
  rcases List.mem_map.mp hx with ⟨s, hs, rfl⟩
  refine List.mem_map.mpr ⟨s, List.mem_filter.mpr ⟨hs, ?_⟩, rfl⟩
  unfold keepSym
  simp [reachable_mem_reachableList m s.id hr]

theorem dce_keeps_reachable (m : DceModule) (s : Symbol)
    (hs : s ∈ m.symbols) (hr : ReachableP m s.id) :
    s ∈ (dce_pass m).symbols := by
  refine List.mem_filter.mpr ⟨hs, ?_⟩
  unfold keepSym
  simp [reachable_mem_reachableList m s.id hr]

theorem reachable_dce (m : DceModule) (hwf : DceWF m) (x : Nat)
    (h : ReachableP m x) : ReachableP (dce_pass m) x := by
  induction h with
  | root s hs hl =>
    refine ReachableP.root s (List.mem_filter.mpr ⟨hs, ?_⟩) hl
    unfold keepSym
    simp [hl]
  | step a b ha hab ih =>
    refine ReachableP.step a b ih ?_
    show (a, b) ∈ (dce_pass m).refs
    refine List.mem_filter.mpr ⟨hab, ?_⟩
    have hb : ReachableP m b := ReachableP.step a b ha hab
    rcases hwf (a, b) hab with ⟨ha_ids, hb_ids⟩
    have haKept : a ∈ keptIds m := mem_keptIds_of_reachable m a ha_ids ha
    have hbKept : b ∈ keptIds m := mem_keptIds_of_reachable m b hb_ids hb
    simp [haKept, hbKept]

theorem dceWF_dce (m : DceModule) : DceWF (dce_pass m) := by
  intro p hp
  rcases List.mem_filter.mp hp with ⟨_, hcond⟩
  simp only [Bool.and_eq_true, decide_eq_true_eq] at hcond
  exact ⟨hcond.1, hcond.2⟩

theorem dce_pass_idem (m : DceModule) (hwf : DceWF m) :
    dce_pass (dce_pass m) = dce_pass m := by
  have hsym : (dce_pass m).symbols.filter (keepSym (dce_pass m)) = (dce_pass m).symbols := by
    apply List.filter_eq_self.mpr
    intro s hs
    rcases List.mem_filter.mp hs with ⟨_, hkeep⟩
    unfold keepSym at hkeep ⊢
    rcases (Bool.or_eq_true _ _).mp hkeep with h | h
    · simp [of_decide_eq_true h]
    · have hr : ReachableP m s.id := reachableList_sound m s.id (of_decide_eq_true h)
      have hr2 : ReachableP (dce_pass m) s.id := reachable_dce m hwf s.id hr
      simp [reachable_mem_reachableList _ _ hr2]
  have hids : keptIds (dce_pass m) = idsOf (dce_pass m) := by
    unfold keptIds
    rw [hsym]
    rfl
  have hrefs : (dce_pass m).refs.filter
      (fun p => decide (p.1 ∈ keptIds (dce_pass m)) && decide (p.2 ∈ keptIds (dce_pass m))) =
      (dce_pass m).refs := by
    apply List.filter_eq_self.mpr
    intro p hp
    have hw := dceWF_dce m p hp
    rw [hids]
    simp [hw.1, hw.2]
  have hdef : dce_pass (dce_pass m) =
      { symbols := (dce_pass m).symbols.filter (keepSym (dce_pass m)),
        refs := (dce_pass m).refs.filter
          (fun p => decide (p.1 ∈ keptIds (dce_pass m)) &&
            decide (p.2 ∈ keptIds (dce_pass m))) } := rfl
  rw [hdef, hsym, hrefs]

/-!
Module merging. `merge_llvm_modules` in the source parses each buffer
(`LLVMRustParseBitcodeForLTO`, panicking on parse failure) and links it into
the accumulator with `LLVMLinkModules2`; the linker body is external to this
repository, so its duplicate-definition behaviour is modelled from the spec.
-/

/-- Modelled from the spec: a parsed per-unit module, reduced to the set of
symbol names it strongly defines (the only attribute the duplicate-definition
contract depends on). -/
structure UnitModule where
  strongDefs : List String
deriving DecidableEq, Repr

/-- Modelled from the spec: `LLVMLinkModules2` — link a unit into the
accumulator symbol table; duplicate strong definitions across the two are a
hard error surfaced by the linker step. -/
def linkModules2 (acc : List String) (u : UnitModule) : Except String (List String) :=
  if u.strongDefs.any (fun n => decide (n ∈ acc)) then
    Except.error "duplicate strong definition"
  else
    Except.ok (acc ++ u.strongDefs)

/-- The merge loop of `merge_llvm_modules`: start from the empty accumulator
module and link every unit in input order, propagating the linker's hard
error. -/
def merge_llvm_modules (units : List UnitModule) : Except String (List String) :=
  units.foldlM linkModules2 []

theorem merge_aux_error (units : List UnitModule) :
    ∀ acc : List String,
      ((∃ u ∈ units, ∃ n ∈ u.strongDefs, n ∈ acc) ∨
       (∃ (i j : Nat) (ui uj : UnitModule) (n : String), i < j ∧
         units[i]? = some ui ∧ units[j]? = some uj ∧
         n ∈ ui.strongDefs ∧ n ∈ uj.strongDefs)) →
      ∃ e, units.foldlM linkModules2 acc = Except.error e := by
  induction units with
  | nil =>
    intro acc h
    rcases h with ⟨u, hu, _⟩ | ⟨i, j, ui, uj, n, _, hi, _, _, _⟩
    · cases hu
    · simp at hi
  | cons u t ih =>
    intro acc h
    by_cases hdup : u.strongDefs.any (fun n => decide (n ∈ acc)) = true
    · refine ⟨"duplicate strong definition", ?_⟩
      rw [List.foldlM_cons]
      rw [show linkModules2 acc u = Except.error "duplicate strong definition" from if_pos hdup]
      rfl
    · have hlink : linkModules2 acc u = Except.ok (acc ++ u.strongDefs) := if_neg hdup
      have hbind : (u :: t).foldlM linkModules2 acc = t.foldlM linkModules2 (acc ++ u.strongDefs) := by
        rw [List.foldlM_cons, hlink]
        rfl
      rw [hbind]
      apply ih (acc ++ u.strongDefs)
      rcases h with ⟨u2, hu2, n, hn, hacc⟩ | ⟨i, j, ui, uj, n, hij, hi, hj, hni, hnj⟩
      · rcases List.mem_cons.mp hu2 with rfl | hu2t
        · exact absurd (List.any_eq_true.mpr ⟨n, hn, decide_eq_true hacc⟩) hdup
        · exact Or.inl ⟨u2, hu2t, n, hn, List.mem_append_left _ hacc⟩
      · cases i with
        | zero =>
          have hui : ui = u := by
            rw [List.getElem?_cons_zero] at hi
            exact (Option.some.inj hi).symm
          cases j with
          | zero => omega
          | succ j2 =>
            have hjt : t[j2]? = some uj := by
              rw [show (u :: t)[j2 + 1]? = t[j2]? from List.getElem?_cons_succ] at hj
              exact hj
            refine Or.inl ⟨uj, ?_, n, hnj, ?_⟩
            · exact List.getElem?_mem hjt
            · subst hui
              exact List.mem_append_right _ hni
        | succ i2 =>
          cases j with
          | zero => omega
          | succ j2 =>
            refine Or.inr ⟨i2, j2, ui, uj, n, by omega, ?_, ?_, hni, hnj⟩
            · rw [show (u :: t)[i2 + 1]? = t[i2]? from List.getElem?_cons_succ] at hi
              exact hi
            · rw [show (u :: t)[j2 + 1]? = t[j2]? from List.getElem?_cons_succ] at hj
              exact hj

/-!
The driver `codegen_bitcode_modules` and the libdevice lookup
`find_libdevice`. Both run external effects (libnvvm calls, the filesystem);
they are embedded as functions of an environment that records the outcome of
each external call, mirroring the source's control flow exactly.
-/

deriving instance DecidableEq for Except

/-- An error code reported by a libnvvm API call (`NvvmError`). -/
abbrev NvvmError := Nat

/-- The error sum type returned by `codegen_bitcode_modules` (`CodegenErr`). -/
inductive CodegenErr
  | Nvvm (e : NvvmError)
  | Io (e : Nat)
deriving DecidableEq, Repr

/-- How a run of `codegen_bitcode_modules` ends: a returned `Result` value,
a `sess.fatal` hard termination, or a `panic!` hard termination. -/
inductive Outcome
  | returned (r : Except CodegenErr (List Nat))
  | sessFatal (msg : String)
  | panicked (msg : String)
deriving DecidableEq, Repr

/-- The outcomes of the external libnvvm calls made by one run of
`codegen_bitcode_modules`, in the order the source makes them. -/
structure NvvmEnv where
  irVersion : Nat × Nat
  programNew : Except NvvmError Unit
  addModule : Except NvvmError Unit
  libdevice : Option (List Nat)
  addLazyLibdevice : Except NvvmError Unit
  addLazyIntrinsics : Except NvvmError Unit
  verify : Except NvvmError Unit
  compilerLog : Option String
  compile : Except NvvmError (List Nat)
deriving DecidableEq, Repr

/-- The `sess.fatal` message of the version precondition check. -/
def versionFatalMsg : String :=
  "rustc_codegen_nvvm requires at least libnvvm 1.6 (CUDA 11.2)"

/-- The `sess.fatal` message when libdevice cannot be located. -/
def libdeviceFatalMsg : String :=
  "Could not find the libdevice library (libdevice.10.bc) in the CUDA directory"

/-- The `panic!` message on verification failure, which embeds the compiler
log retrieved from the program. -/
def verifierPanicMsg (log : String) : String :=
  "Malformed NVVM IR program rejected by libnvvm, dumping verifier log:\n\n" ++ log ++
    "\n\nIf you plan to submit a bug report please re-run the codegen with " ++
    "RUSTFLAGS=--emit=llvm-ir and include the .ll file corresponding to the .o " ++
    "file mentioned in the log"

/-- The `panic!` message when compilation fails after successful
verification. -/
def compilePanicMsg : String :=
  "libnvvm returned an error that was not previously caught by the verifier"

/-- The driver `codegen_bitcode_modules` as a function of the outcomes of its
external calls, following the source's control flow statement by statement
(version gate, program creation, module add, libdevice lookup, two lazy
module adds, verification, compilation). -/
def codegen_bitcode_modules (env : NvvmEnv) : Outcome :=
  if env.irVersion.2 < 6 ∨ env.irVersion.1 < 1 then
    Outcome.sessFatal versionFatalMsg
  else
    match env.programNew with
    | Except.error e => Outcome.returned (Except.error (CodegenErr.Nvvm e))
    | Except.ok _ =>
      match env.addModule with
      | Except.error e => Outcome.returned (Except.error (CodegenErr.Nvvm e))
      | Except.ok _ =>
        match env.libdevice with
        | none => Outcome.sessFatal libdeviceFatalMsg
        | some _ =>
          match env.addLazyLibdevice with
          | Except.error e => Outcome.returned (Except.error (CodegenErr.Nvvm e))
          | Except.ok _ =>
            match env.addLazyIntrinsics with
            | Except.error e => Outcome.returned (Except.error (CodegenErr.Nvvm e))
            | Except.ok _ =>
              match env.verify with
              | Except.error _ =>
                Outcome.panicked (verifierPanicMsg (env.compilerLog.getD ""))
              | Except.ok _ =>
                match env.compile with
                | Except.error _ => Outcome.panicked compilePanicMsg
                | Except.ok b => Outcome.returned (Except.ok b)

/-- A directory entry of the `nvvm/libdevice` toolchain subdirectory:
its file extension and the outcome of reading its contents. -/
structure DirEntry where
  extension : Option String
  contents : Option (List Nat)
deriving DecidableEq, Repr

/-- The filesystem outcomes consumed by one run of `find_libdevice`:
the resolved CUDA root (if any) and the listing of `nvvm/libdevice`
(if readable), each listed entry itself possibly an unreadable `none`. -/
structure FsEnv where
  cudaRoot : Option String
  dirListing : Option (List (Option DirEntry))
deriving DecidableEq, Repr

/-- `find_libdevice` as a function of the filesystem outcomes: resolve the
CUDA root, read the directory, drop erroring entries, pick the first entry
with extension `bc`, and read it; every failure collapses to `none`. -/
def find_libdevice (env : FsEnv) : Option (List Nat) :=
  match env.cudaRoot with
  | none => none
  | some _ =>
    match env.dirListing with
    | none => none
    | some es =>
      match es.reduceOption.find? (fun d => d.extension == some "bc") with
      | none => none
      | some e => e.contents

/-!
Claim theorems. Each claim of the specification is settled by exactly one
theorem below, with concrete counterexamples where the code deviates and
concrete witnesses instantiating every hypothesised theorem.
-/

/-- A module whose single function is a declaration with hidden visibility
listed in the `cg_nvvm_used` retained-set metadata. -/
def c1Module : Module :=
  { functions := [{ id := 0, linkage := Linkage.external,
                    visibility := Visibility.hidden, isDecl := true }]
    globals := []
    annotations := []
    usedMd := [[MDOperand.value 0]] }

/-- Claim C1 counterexample: a declaration that is in the explicitly-retained
set does NOT keep its linkage/visibility — the retained override rewrites it
to external/default, changing its visibility from hidden to default. -/
theorem internalize_decl_retained_changed :
    internalize_pass c1Module =
      some { c1Module with functions :=
        [{ id := 0, linkage := Linkage.external,
           visibility := Visibility.default, isDecl := true }] } ∧
    Visibility.hidden ≠ Visibility.default := by
  constructor
  · decide
  · decide

/-- Claim C1 (amended): a declaration that is not in the retained set keeps
its linkage and visibility, regardless of entry-point membership; a
declaration in the retained set is instead forced to external linkage and
default visibility; global declarations are always untouched. -/
theorem internalize_decl_frame (m m' : Module) (h : internalize_pass m = some m')
    (u : List MDOperand) (hu : usedFuncsOf m.usedMd = some u) :
    (∀ (i : Nat) (f : Symbol), m.functions[i]? = some f → f.isDecl = true →
       MDOperand.value f.id ∉ u → m'.functions[i]? = some f) ∧
    (∀ (i : Nat) (f : Symbol), m.functions[i]? = some f → f.isDecl = true →
       MDOperand.value f.id ∈ u →
       m'.functions[i]? = some { f with linkage := Linkage.external,
                                        visibility := Visibility.default }) ∧
    (∀ (j : Nat) (g : Symbol), m.globals[j]? = some g → g.isDecl = true →
       m'.globals[j]? = some g) := by
  rcases internalize_pass_eq m m' h with ⟨k, u2, hk2, hu2, hm'⟩
  have huu : u2 = u := Option.some.inj (hu2.symm.trans hu)
  subst huu
  subst hm'
  refine ⟨?_, ?_, ?_⟩
  · intro i f hf hd hnu
    show (m.functions.map (internalizeFunc k u2))[i]? = some f
    rw [List.getElem?_map, hf, Option.map_some']
    rw [internalizeFunc_decl_unretained k u2 f hd hnu]
  · intro i f hf hd hmem
    show (m.functions.map (internalizeFunc k u2))[i]? = _
    rw [List.getElem?_map, hf, Option.map_some']
    rw [internalizeFunc_retained k u2 f hmem]
  · intro j g hg hd
    show (m.globals.map internalizeGlobal)[j]? = some g
    rw [List.getElem?_map, hg, Option.map_some']
    rw [internalizeGlobal_decl g hd]

/-- A module with one declaration (not retained) and one global declaration,
exercising the frame property of claim C1. -/
def cw1Module : Module :=
  { functions := [{ id := 3, linkage := Linkage.external,
                    visibility := Visibility.hidden, isDecl := true }]
    globals := [{ id := 4, linkage := Linkage.external,
                  visibility := Visibility.default, isDecl := true }]
    annotations := []
    usedMd := [] }

/-- The declaration function of `cw1Module`. -/
def cw1Fn : Symbol :=
  { id := 3, linkage := Linkage.external, visibility := Visibility.hidden, isDecl := true }

/-- The declaration global of `cw1Module`. -/
def cw1Gl : Symbol :=
  { id := 4, linkage := Linkage.external, visibility := Visibility.default, isDecl := true }

/-- Claim C1 witness: the amended frame theorem instantiated on a concrete
module whose declarations are untouched. -/
theorem internalize_decl_frame_witness :
    internalize_pass cw1Module = some cw1Module ∧
    cw1Module.functions[0]? = some cw1Fn ∧
    cw1Module.globals[0]? = some cw1Gl :=
  ⟨by decide,
   (internalize_decl_frame cw1Module cw1Module (by decide) [] (by decide)).1 0
     cw1Fn (by decide) rfl (by decide),
   (internalize_decl_frame cw1Module cw1Module (by decide) [] (by decide)).2.2 0
     cw1Gl (by decide) rfl⟩

/-- Claim C2: after internalization, every defined non-kernel non-retained
function and every defined global is internal with default visibility,
kernel functions that were externally visible remain so, and with empty
entry-point and retained-set metadata every defined function is
internalized (globals unconditionally so by the second conjunct). -/
theorem internalize_pass_internalizes (m m' : Module)
    (h : internalize_pass m = some m') (k u : List MDOperand)
    (hk : kernelsOf m.annotations = some k) (hu : usedFuncsOf m.usedMd = some u) :
    (∀ (i : Nat) (f : Symbol), m.functions[i]? = some f → f.isDecl = false →
       MDOperand.value f.id ∉ k → MDOperand.value f.id ∉ u →
       m'.functions[i]? = some { f with linkage := Linkage.internal,
                                        visibility := Visibility.default }) ∧
    (∀ (j : Nat) (g : Symbol), m.globals[j]? = some g → g.isDecl = false →
       m'.globals[j]? = some { g with linkage := Linkage.internal,
                                      visibility := Visibility.default }) ∧
    (∀ (i : Nat) (f : Symbol), m.functions[i]? = some f →
       MDOperand.value f.id ∈ k → f.linkage = Linkage.external →
       f.visibility = Visibility.default →
       ∃ f2, m'.functions[i]? = some f2 ∧ f2.linkage = Linkage.external ∧
         f2.visibility = Visibility.default) ∧
    (m.annotations = [] → m.usedMd = [] →
       ∀ (i : Nat) (f : Symbol), m.functions[i]? = some f → f.isDecl = false →
       m'.functions[i]? = some { f with linkage := Linkage.internal,
                                        visibility := Visibility.default }) := by
  rcases internalize_pass_eq m m' h with ⟨k2, u2, hk2, hu2, hm'⟩
  have hkk : k2 = k := Option.some.inj (hk2.symm.trans hk)
  have huu : u2 = u := Option.some.inj (hu2.symm.trans hu)
  subst hkk
  subst huu
  subst hm'
  have hmain : ∀ (i : Nat) (f : Symbol), m.functions[i]? = some f →
      f.isDecl = false → MDOperand.value f.id ∉ k2 → MDOperand.value f.id ∉ u2 →
      (m.functions.map (internalizeFunc k2 u2))[i]? =
        some { f with linkage := Linkage.internal,
                      visibility := Visibility.default } := by
    intro i f hf hd hnk hnu
    rw [List.getElem?_map, hf, Option.map_some']
    rw [internalizeFunc_plain k2 u2 f hd hnk hnu]
  refine ⟨hmain, ?_, ?_, ?_⟩
  · intro j g hg hd
    show (m.globals.map internalizeGlobal)[j]? = _
    rw [List.getElem?_map, hg, Option.map_some']
    rw [internalizeGlobal_def g hd]
  · intro i f hf hkmem hlink hvis
    by_cases humem : MDOperand.value f.id ∈ u2
    · refine ⟨{ f with linkage := Linkage.external, visibility := Visibility.default }, ?_, rfl, rfl⟩
      show (m.functions.map (internalizeFunc k2 u2))[i]? = _
      rw [List.getElem?_map, hf, Option.map_some']
      rw [internalizeFunc_retained k2 u2 f humem]
    · refine ⟨f, ?_, hlink, hvis⟩
      show (m.functions.map (internalizeFunc k2 u2))[i]? = some f
      rw [List.getElem?_map, hf, Option.map_some']
      rw [internalizeFunc_kernel_unretained k2 u2 f hkmem humem]
  · intro hann hused i f hf hd
    have hk0 : k2 = [] := by
      rw [hann] at hk2
      exact (Option.some.inj hk2).symm
    have hu0 : u2 = [] := by
      rw [hused] at hu2
      exact (Option.some.inj hu2).symm
    exact hmain i f hf hd (by rw [hk0]; exact List.not_mem_nil _)
      (by rw [hu0]; exact List.not_mem_nil _)

/-- A module with a kernel, a plain defined function and a defined global. -/
def cw2Module : Module :=
  { functions := [{ id := 0, linkage := Linkage.external,
                    visibility := Visibility.default, isDecl := false },
                  { id := 1, linkage := Linkage.weak,
                    visibility := Visibility.hidden, isDecl := false }]
    globals := [{ id := 2, linkage := Linkage.external,
                  visibility := Visibility.default, isDecl := false }]
    annotations := [[MDOperand.value 0, MDOperand.mdstring "kernel"]]
    usedMd := [] }

/-- The non-kernel defined function of `cw2Module`. -/
def cw2Fn : Symbol :=
  { id := 1, linkage := Linkage.weak, visibility := Visibility.hidden, isDecl := false }

/-- The defined global of `cw2Module`. -/
def cw2Gl : Symbol :=
  { id := 2, linkage := Linkage.external, visibility := Visibility.default, isDecl := false }

/-- The result of internalizing `cw2Module`: the kernel stays external, the
plain function and the global become internal with default visibility. -/
def cw2Result : Module :=
  { functions := [{ id := 0, linkage := Linkage.external,
                    visibility := Visibility.default, isDecl := false },
                  { id := 1, linkage := Linkage.internal,
                    visibility := Visibility.default, isDecl := false }]
    globals := [{ id := 2, linkage := Linkage.internal,
                  visibility := Visibility.default, isDecl := false }]
    annotations := [[MDOperand.value 0, MDOperand.mdstring "kernel"]]
    usedMd := [] }

/-- Claim C2 witness: the internalization theorem instantiated on
`cw2Module`. -/
theorem internalize_pass_internalizes_witness :
    internalize_pass cw2Module = some cw2Result ∧
    cw2Result.functions[1]? = some { cw2Fn with linkage := Linkage.internal, visibility := Visibility.default } ∧
    cw2Result.globals[0]? = some { cw2Gl with linkage := Linkage.internal, visibility := Visibility.default } :=
  ⟨by decide,
   (internalize_pass_internalizes cw2Module cw2Result (by decide)
     [MDOperand.value 0] [] (by decide) (by decide)).1 1 cw2Fn
     (by decide) rfl (by decide) (by decide),
   (internalize_pass_internalizes cw2Module cw2Result (by decide)
     [MDOperand.value 0] [] (by decide) (by decide)).2.1 0 cw2Gl
     (by decide) rfl⟩

/-- A module whose single symbol is a defined global listed in the
`cg_nvvm_used` retained-set metadata. -/
def c3Module : Module :=
  { functions := []
    globals := [{ id := 5, linkage := Linkage.external,
                  visibility := Visibility.default, isDecl := false }]
    annotations := []
    usedMd := [[MDOperand.value 5]] }

/-- Claim C3 counterexample: a defined global in the explicitly-retained set
ends up with internal linkage, not external — the retained override is only
applied in the function loop, never in the global loop. -/
theorem internalize_retained_global_demoted :
    (internalize_pass c3Module).map (fun m2 => m2.globals.map Symbol.linkage) =
      some [Linkage.internal] ∧
    Linkage.internal ≠ Linkage.external := by
  constructor
  · decide
  · decide

/-- Claim C3 (amended): every FUNCTION in the retained set has external
linkage and default visibility after the pass, even if it is not an entry
point and the generic rule first demoted it; defined globals are not
exempted by the retained set and are internalized like any other defined
global. -/
theorem internalize_retained_force (m m' : Module)
    (h : internalize_pass m = some m') (u : List MDOperand)
    (hu : usedFuncsOf m.usedMd = some u) :
    (∀ (i : Nat) (f : Symbol), m.functions[i]? = some f →
       MDOperand.value f.id ∈ u →
       m'.functions[i]? = some { f with linkage := Linkage.external,
                                        visibility := Visibility.default }) ∧
    (∀ (j : Nat) (g : Symbol), m.globals[j]? = some g → g.isDecl = false →
       m'.globals[j]? = some { g with linkage := Linkage.internal,
                                      visibility := Visibility.default }) := by
  rcases internalize_pass_eq m m' h with ⟨k, u2, hk2, hu2, hm'⟩
  have huu : u2 = u := Option.some.inj (hu2.symm.trans hu)
  subst huu
  subst hm'
  refine ⟨?_, ?_⟩
  · intro i f hf hmem
    show (m.functions.map (internalizeFunc k u2))[i]? = _
    rw [List.getElem?_map, hf, Option.map_some']
    rw [internalizeFunc_retained k u2 f hmem]
  · intro j g hg hd
    show (m.globals.map internalizeGlobal)[j]? = _
    rw [List.getElem?_map, hg, Option.map_some']
    rw [internalizeGlobal_def g hd]

/-- A module with one defined non-kernel function in the retained set,
starting from internal linkage and hidden visibility. -/
def cw3Module : Module :=
  { functions := [{ id := 6, linkage := Linkage.internal,
                    visibility := Visibility.hidden, isDecl := false }]
    globals := []
    annotations := []
    usedMd := [[MDOperand.value 6]] }

/-- The retained function of `cw3Module`. -/
def cw3Fn : Symbol :=
  { id := 6, linkage := Linkage.internal, visibility := Visibility.hidden, isDecl := false }

/-- Claim C3 witness: the amended retained-set theorem instantiated on
`cw3Module`, whose retained function is forced to external/default. -/
theorem internalize_retained_force_witness :
    (∃ m2, internalize_pass cw3Module = some m2 ∧
      m2.functions[0]? = some { cw3Fn with linkage := Linkage.external, visibility := Visibility.default }) :=
  ⟨{ cw3Module with functions := [{ cw3Fn with linkage := Linkage.external, visibility := Visibility.default }] },
   by decide,
   (internalize_retained_force cw3Module
     { cw3Module with functions := [{ cw3Fn with linkage := Linkage.external, visibility := Visibility.default }] }
     (by decide) [MDOperand.value 6] (by decide)).1 0 cw3Fn (by decide) (by decide)⟩

/-- Claim C4: the internalization pass is idempotent — a second application
of the visibility reducer returns the once-internalized module unchanged,
so every function's and global's linkage/visibility assignment is the
same after two applications as after one. -/
theorem internalize_pass_idempotent (m m' : Module)
    (h : internalize_pass m = some m') : internalize_pass m' = some m' := by
  rcases internalize_pass_eq m m' h with ⟨k, u, hk, hu, hm'⟩
  rcases m with ⟨fs, gs, ann, used⟩
  subst hm'
  have hk2 : kernelsOf ann = some k := hk
  have hu2 : usedFuncsOf used = some u := hu
  show internalize_pass
    { functions := fs.map (internalizeFunc k u), globals := gs.map internalizeGlobal,
      annotations := ann, usedMd := used } = _
  unfold internalize_pass
  rw [show ({ functions := fs.map (internalizeFunc k u),
              globals := gs.map internalizeGlobal,
              annotations := ann, usedMd := used } : Module).annotations = ann from rfl]
  rw [show ({ functions := fs.map (internalizeFunc k u),
              globals := gs.map internalizeGlobal,
              annotations := ann, usedMd := used } : Module).usedMd = used from rfl]
  rw [hk2, hu2]
  show some _ = some _
  have hf : (fs.map (internalizeFunc k u)).map (internalizeFunc k u) =
      fs.map (internalizeFunc k u) := by
    rw [List.map_map]
    exact List.map_congr_left (fun a _ => internalizeFunc_idem k u a)
  have hg : (gs.map internalizeGlobal).map internalizeGlobal =
      gs.map internalizeGlobal := by
    rw [List.map_map]
    exact List.map_congr_left (fun a _ => internalizeGlobal_idem a)
  rw [show ({ functions := fs.map (internalizeFunc k u),
              globals := gs.map internalizeGlobal,
              annotations := ann, usedMd := used } : Module).functions =
      fs.map (internalizeFunc k u) from rfl]
  rw [show ({ functions := fs.map (internalizeFunc k u),
              globals := gs.map internalizeGlobal,
              annotations := ann, usedMd := used } : Module).globals =
      gs.map internalizeGlobal from rfl]
  rw [hf, hg]

/-- Claim C4 witness: idempotence instantiated on `cw2Module`. -/
theorem internalize_pass_idempotent_witness :
    internalize_pass cw2Module = some cw2Result ∧
    internalize_pass cw2Result = some cw2Result :=
  ⟨by decide, internalize_pass_idempotent cw2Module cw2Result (by decide)⟩

/-- Claim C5: on a well-formed module, dead-code elimination never removes a
symbol reachable by a call/reference chain from an externally-visible root,
and running the pass twice produces exactly the module produced by running
it once. -/
theorem dce_pass_safe_idem (m : DceModule) (hwf : DceWF m) :
    (∀ s ∈ m.symbols, ReachableP m s.id → s ∈ (dce_pass m).symbols) ∧
    dce_pass (dce_pass m) = dce_pass m :=
  ⟨fun s hs hr => dce_keeps_reachable m s hs hr, dce_pass_idem m hwf⟩

/-- A module with an external root, an internal symbol it references, and an
unreferenced internal symbol. -/
def dceExample : DceModule :=
  { symbols := [{ id := 0, linkage := Linkage.external,
                  visibility := Visibility.default, isDecl := false },
                { id := 1, linkage := Linkage.internal,
                  visibility := Visibility.default, isDecl := false },
                { id := 2, linkage := Linkage.internal,
                  visibility := Visibility.default, isDecl := false }]
    refs := [(0, 1)] }

/-- The reachable internal symbol of `dceExample`. -/
def dceKept : Symbol :=
  { id := 1, linkage := Linkage.internal, visibility := Visibility.default, isDecl := false }

/-- The external root of `dceExample`. -/
def dceRoot : Symbol :=
  { id := 0, linkage := Linkage.external, visibility := Visibility.default, isDecl := false }

/-- Claim C5 witness: the DCE theorem instantiated on `dceExample` — the
referenced internal symbol survives and the pass is idempotent there. -/
theorem dce_pass_safe_idem_witness :
    DceWF dceExample ∧ dceKept ∈ (dce_pass dceExample).symbols ∧
    dce_pass (dce_pass dceExample) = dce_pass dceExample :=
  ⟨by decide,
   (dce_pass_safe_idem dceExample (by decide)).1 dceKept (by decide)
     (ReachableP.step 0 1
       (ReachableP.root dceRoot (by decide) (by decide)) (by decide)),
   (dce_pass_safe_idem dceExample (by decide)).2⟩

/-- Claim C6: if two input units both strongly define the same symbol name,
the merge step surfaces a hard error from the linker step instead of
silently picking one definition. -/
theorem merge_duplicate_strong_error (units : List UnitModule) (i j : Nat)
    (ui uj : UnitModule) (name : String) (hij : i < j)
    (hi : units[i]? = some ui) (hj : units[j]? = some uj)
    (hni : name ∈ ui.strongDefs) (hnj : name ∈ uj.strongDefs) :
    ∃ e, merge_llvm_modules units = Except.error e :=
  merge_aux_error units [] (Or.inr ⟨i, j, ui, uj, name, hij, hi, hj, hni, hnj⟩)

/-- Claim C6 witness: two units both strongly defining `kernel_main` make
the merge fail. -/
theorem merge_duplicate_strong_error_witness :
    ∃ e, merge_llvm_modules
      [{ strongDefs := ["kernel_main"] }, { strongDefs := ["kernel_main"] }] =
      Except.error e :=
  merge_duplicate_strong_error
    [{ strongDefs := ["kernel_main"] }, { strongDefs := ["kernel_main"] }]
    0 1 { strongDefs := ["kernel_main"] } { strongDefs := ["kernel_main"] }
    "kernel_main" (by decide) (by decide) (by decide) (by decide) (by decide)

/-- Claim C7: the driver returns an error value only when program creation
or one of the module-add calls fails; a too-old version and a missing
libdevice terminate via `sess.fatal`, a verification rejection panics with
the retrieved compiler log embedded in the message, and a compile error
after successful verification panics — none of these are returned errors. -/
theorem codegen_error_discipline (env : NvvmEnv) :
    (∀ e, codegen_bitcode_modules env = Outcome.returned (Except.error e) →
       ∃ er, e = CodegenErr.Nvvm er ∧
         (env.programNew = Except.error er ∨ env.addModule = Except.error er ∨
          env.addLazyLibdevice = Except.error er ∨
          env.addLazyIntrinsics = Except.error er)) ∧
    ((env.irVersion.2 < 6 ∨ env.irVersion.1 < 1) →
       codegen_bitcode_modules env = Outcome.sessFatal versionFatalMsg) ∧
    (¬(env.irVersion.2 < 6 ∨ env.irVersion.1 < 1) →
       env.programNew = Except.ok () → env.addModule = Except.ok () →
       env.libdevice = none →
       codegen_bitcode_modules env = Outcome.sessFatal libdeviceFatalMsg) ∧
    (∀ (bc : List Nat) (er : NvvmError),
       ¬(env.irVersion.2 < 6 ∨ env.irVersion.1 < 1) →
       env.programNew = Except.ok () → env.addModule = Except.ok () →
       env.libdevice = some bc →
       env.addLazyLibdevice = Except.ok () → env.addLazyIntrinsics = Except.ok () →
       env.verify = Except.error er →
       codegen_bitcode_modules env =
         Outcome.panicked (verifierPanicMsg (env.compilerLog.getD ""))) ∧
    (∀ (bc : List Nat) (er : NvvmError),
       ¬(env.irVersion.2 < 6 ∨ env.irVersion.1 < 1) →
       env.programNew = Except.ok () → env.addModule = Except.ok () →
       env.libdevice = some bc →
       env.addLazyLibdevice = Except.ok () → env.addLazyIntrinsics = Except.ok () →
       env.verify = Except.ok () → env.compile = Except.error er →
       codegen_bitcode_modules env = Outcome.panicked compilePanicMsg) := by
  rcases env with ⟨⟨major, minor⟩, pn, am, ld, al1, al2, vr, cl, cp⟩
  refine ⟨?_, ?_, ?_, ?_, ?_⟩
  · intro e h
    unfold codegen_bitcode_modules at h
    by_cases hv : minor < 6 ∨ major < 1
    · rw [if_pos hv] at h
      simp at h
    · rw [if_neg hv] at h
      cases pn with
      | error er =>
        simp at h
        exact ⟨er, h.symm, Or.inl rfl⟩
      | ok u1 =>
        cases u1
        cases am with
        | error er =>
          simp at h
          exact ⟨er, h.symm, Or.inr (Or.inl rfl)⟩
        | ok u2 =>
          cases u2
          cases ld with
          | none => simp at h
          | some bc =>
            cases al1 with
            | error er =>
              simp at h
              exact ⟨er, h.symm, Or.inr (Or.inr (Or.inl rfl))⟩
            | ok u3 =>
              cases u3
              cases al2 with
              | error er =>
                simp at h
                exact ⟨er, h.symm, Or.inr (Or.inr (Or.inr rfl))⟩
              | ok u4 =>
                cases u4
                cases vr with
                | error er => simp at h
                | ok u5 =>
                  cases u5
                  cases cp with
                  | error er => simp at h
                  | ok b => simp at h
  · intro hv
    unfold codegen_bitcode_modules
    rw [if_pos hv]
  · intro hv hpn ham hld
    subst hpn
    subst ham
    subst hld
    unfold codegen_bitcode_modules
    rw [if_neg hv]
  · intro bc er hv hpn ham hld hal1 hal2 hvr
    subst hpn
    subst ham
    subst hld
    subst hal1
    subst hal2
    subst hvr
    unfold codegen_bitcode_modules
    rw [if_neg hv]
  · intro bc er hv hpn ham hld hal1 hal2 hvr hcp
    subst hpn
    subst ham
    subst hld
    subst hal1
    subst hal2
    subst hvr
    subst hcp
    unfold codegen_bitcode_modules
    rw [if_neg hv]

/-- An environment in which verification fails with a retrievable log. -/
def c7Env : NvvmEnv :=
  { irVersion := (1, 6)
    programNew := Except.ok ()
    addModule := Except.ok ()
    libdevice := some [1]
    addLazyLibdevice := Except.ok ()
    addLazyIntrinsics := Except.ok ()
    verify := Except.error 3
    compilerLog := some "bad ir"
    compile := Except.ok [] }

/-- Claim C7 witness: a verification rejection terminates via `panic!` with
the compiler log in the message, not via a returned error value. -/
theorem codegen_error_discipline_witness :
    codegen_bitcode_modules c7Env = Outcome.panicked (verifierPanicMsg "bad ir") :=
  (codegen_error_discipline c7Env).2.2.2.1 [1] 3 (by decide) rfl rfl rfl rfl rfl rfl

/-- An environment in which libnvvm reports IR version 2.0 and every later
external call would succeed. -/
def c8Env : NvvmEnv :=
  { irVersion := (2, 0)
    programNew := Except.ok ()
    addModule := Except.ok ()
    libdevice := some [1]
    addLazyLibdevice := Except.ok ()
    addLazyIntrinsics := Except.ok ()
    verify := Except.ok ()
    compilerLog := none
    compile := Except.ok [7] }

/-- Claim C8: the version gate `minor < 6 || major < 1` is NOT the test
"(major, minor) below 1.6": at reported version (2, 0) — which is not below
1.6 — the driver still hard-aborts with the version fatal message, before
any program handle is consulted. -/
theorem codegen_version_check_bug :
    codegen_bitcode_modules c8Env = Outcome.sessFatal versionFatalMsg ∧
    ¬(c8Env.irVersion.1 < 1 ∨ (c8Env.irVersion.1 = 1 ∧ c8Env.irVersion.2 < 6)) ∧
    codegen_bitcode_modules { c8Env with programNew := Except.error 9 } =
      Outcome.sessFatal versionFatalMsg := by
  refine ⟨rfl, by decide, rfl⟩

theorem find_first_aux {α : Type} (p : α → Bool) (l : List α) :
    ∀ (i : Nat) (e : α), l[i]? = some e → p e = true →
      (∀ (j : Nat) (d : α), j < i → l[j]? = some d → p d = false) →
      l.find? p = some e := by
  induction l with
  | nil =>
    intro i e he
    rw [List.getElem?_nil] at he
    cases he
  | cons a t ih =>
    intro i e he hpe hbefore
    cases i with
    | zero =>
      rw [List.getElem?_cons_zero] at he
      have hae : a = e := Option.some.inj he
      subst hae
      rw [List.find?_cons_of_pos _ hpe]
    | succ i2 =>
      have hpa : p a = false :=
        hbefore 0 a (Nat.succ_pos _) (by rw [List.getElem?_cons_zero])
      rw [List.find?_cons_of_neg _ (by simp [hpa])]
      rw [List.getElem?_cons_succ] at he
      exact ih i2 e he hpe
        (fun j d hj hd => hbefore (j + 1) d (by omega)
          (by rw [List.getElem?_cons_succ]; exact hd))

/-- Claim C9: `find_libdevice` returns the full contents of the first listed
directory entry whose extension is `bc`, and returns `none` exactly when the
CUDA root cannot be resolved, the libdevice directory cannot be read, no
surviving entry has extension `bc`, or the selected file cannot be read. -/
theorem find_libdevice_spec (env : FsEnv) :
    (∀ (root : String) (es : List (Option DirEntry)) (i : Nat) (e : DirEntry),
       env.cudaRoot = some root → env.dirListing = some es →
       es.reduceOption[i]? = some e → e.extension = some "bc" →
       (∀ (j : Nat) (d : DirEntry), j < i → es.reduceOption[j]? = some d →
          d.extension ≠ some "bc") →
       find_libdevice env = e.contents) ∧
    (find_libdevice env = none ↔
       env.cudaRoot = none ∨ env.dirListing = none ∨
       (∃ es, env.dirListing = some es ∧
          ∀ d ∈ es.reduceOption, d.extension ≠ some "bc") ∨
       (∃ es e, env.dirListing = some es ∧
          es.reduceOption.find? (fun d => d.extension == some "bc") = some e ∧
          e.contents = none)) := by
  rcases env with ⟨cr, dl⟩
  constructor
  · intro root es i e hcr hdl hi hext hbefore
    have hcr2 : cr = some root := hcr
    have hdl2 : dl = some es := hdl
    subst hcr2
    subst hdl2
    have hfind : es.reduceOption.find? (fun d => d.extension == some "bc") = some e :=
      find_first_aux _ _ i e hi (by rw [hext]; exact beq_self_eq_true _)
        (fun j d hj hd => beq_eq_false_iff_ne.mpr (hbefore j d hj hd))
    have hred : find_libdevice { cudaRoot := some root, dirListing := some es } =
        match es.reduceOption.find? (fun d => d.extension == some "bc") with
        | none => none
        | some e2 => e2.contents := rfl
    rw [hred, hfind]
  · cases cr with
    | none =>
      simp [find_libdevice]
    | some r =>
      cases dl with
      | none => simp [find_libdevice]
      | some es =>
        have hred : find_libdevice { cudaRoot := some r, dirListing := some es } =
            match es.reduceOption.find? (fun d => d.extension == some "bc") with
            | none => none
            | some e2 => e2.contents := rfl
        cases hf : es.reduceOption.find? (fun d => d.extension == some "bc") with
        | none =>
          rw [hred, hf]
          constructor
          · intro _
            refine Or.inr (Or.inr (Or.inl ⟨es, rfl, ?_⟩))
            intro d hd hcontra
            exact List.find?_eq_none.mp hf d hd (by rw [hcontra]; exact beq_self_eq_true _)
          · intro _
            rfl
        | some e =>
          rw [hred, hf]
          constructor
          · intro hc
            exact Or.inr (Or.inr (Or.inr ⟨es, e, rfl, hf, hc⟩))
          · intro hrhs
            rcases hrhs with h1 | h2 | ⟨es2, hes2, hall⟩ | ⟨es2, e2, hes2, hf2, hc2⟩
            · cases h1
            · cases h2
            · have hes : es2 = es := (Option.some.inj (show some es = some es2 from hes2)).symm
              subst hes
              have hmem := List.mem_of_find?_eq_some hf
              have hp := List.find?_some hf
              rw [beq_iff_eq] at hp
              exact absurd hp (hall e hmem)
            · have hes : es2 = es := (Option.some.inj (show some es = some es2 from hes2)).symm
              subst hes
              rw [hf] at hf2
              have hee : e2 = e := (Option.some.inj hf2).symm
              subst hee
              exact hc2

/-- A filesystem environment with an unreadable entry, a readable `bc` entry
and a later unreadable `bc` entry. -/
def c9Env : FsEnv :=
  { cudaRoot := some "cuda"
    dirListing := some [none,
      some { extension := some "bc", contents := some [1, 2] },
      some { extension := some "bc", contents := none }] }

/-- Claim C9 witness: `find_libdevice` picks the first `bc` entry of `c9Env`
and returns its full contents. -/
theorem find_libdevice_spec_witness :
    find_libdevice c9Env = some [1, 2] :=
  (find_libdevice_spec c9Env).1 "cuda"
    [none, some { extension := some "bc", contents := some [1, 2] },
     some { extension := some "bc", contents := none }]
    0 { extension := some "bc", contents := some [1, 2] }
    rfl rfl (by decide) rfl (by intro j d hj hd; omega)

/-- Claim C10: the entry-point scan skips any annotation node with fewer
than two operands and never aborts, while the retained-set scan reads
operand 0 unconditionally — `internalize_pass` is total whenever every
`cg_nvvm_used` node has at least one operand, and panics (models as `none`)
on a module whose retained-set metadata holds a zero-operand node. -/
theorem metadata_scan_safety :
    (∀ (acc ops : List MDOperand), ops.length < 2 → kernelStep acc ops = some acc) ∧
    (∀ annotations : List (List MDOperand), ∃ k, kernelsOf annotations = some k) ∧
    (∀ m : Module, (∀ node ∈ m.usedMd, node ≠ []) →
       ∃ m2, internalize_pass m = some m2) ∧
    internalize_pass
      { functions := [], globals := [], annotations := [], usedMd := [[]] } = none := by
  refine ⟨kernelStep_short, kernelsOf_isSome, ?_, by decide⟩
  intro m hne
  rcases kernelsOf_isSome m.annotations with ⟨k, hk⟩
  rcases usedFuncsOf_aux m.usedMd hne [] with ⟨u, hu⟩
  have hu2 : usedFuncsOf m.usedMd = some u := hu
  refine ⟨{ m with functions := m.functions.map (internalizeFunc k u), globals := m.globals.map internalizeGlobal }, ?_⟩
  unfold internalize_pass
  rw [hk, hu2]
  rfl

/-- A module whose single retained-set node has one operand. -/
def c10Module : Module :=
  { functions := [{ id := 0, linkage := Linkage.external,
                    visibility := Visibility.default, isDecl := false }]
    globals := []
    annotations := []
    usedMd := [[MDOperand.value 0]] }

/-- Claim C10 witness: the totality precondition holds on `c10Module` and
the pass succeeds there; a one-operand annotation node is skipped safely. -/
theorem metadata_scan_safety_witness :
    (∀ node ∈ c10Module.usedMd, node ≠ []) ∧
    (∃ m2, internalize_pass c10Module = some m2) ∧
    kernelStep [] [MDOperand.value 0] = some [] :=
  ⟨by decide, metadata_scan_safety.2.2.1 c10Module (by decide),
   metadata_scan_safety.1 [] [MDOperand.value 0] (by decide)⟩
